import Mathlib

/-!
Verification of the metric-resolution logic of
`spec2006_work/scripts/convert_sniper_sqlite.py`.

The script reads a Sniper `sim.stats.sqlite3` database with three tables
`names(nameid, objectname, metricname)`, `prefixes(prefixid, prefixname)` and
`values(prefixid, nameid, core, value)` and re-exports it as a nested
document.  The non-trivial logic is `convert_value` (best-effort type
coercion) and `build_resolved_metrics` (the join/resolution step), plus the
error-handling shell of `export_database`.

Modelling choices for the shallow embedding:
  * A SQLite/Python scalar value is `PyVal`: NULL, int, float or text.
    Python floats are modelled as exact rationals; the script never does
    arithmetic on them, it only parses and stores them, so the rational
    model is faithful for everything proved here (BLOB values and the
    shortest-roundtrip float repr are not modelled; no theorem depends on
    them).
  * Python dicts are association lists: insertion keeps the first-inserted
    key and replaces the value in place (as CPython does), lookups take the
    first matching binding.  Key equality is Python `==` (`pyEq`), under
    which an int and a float compare by numeric value.
  * The SQL `ORDER BY prefixid` is embedded as an insertion sort by the
    SQLite comparison order (NULL before numeric before text, numerics by
    value, text by the string order).
  * `int(...)` / `float(...)` string parsing is modelled for sign, digits,
    decimal point and exponent forms with surrounding whitespace (Python's
    digit-group underscores and the `inf`/`nan` names are not modelled; the
    latter never reach the float branch because it requires a `.`).
-/

namespace SniperConvert

/-- A Python/SQLite scalar value: NULL, integer, float (modelled exactly as a
rational) or text. -/
inductive PyVal where
  | none
  | int (n : ℤ)
  | float (q : ℚ)
  | str (s : String)
  deriving DecidableEq

/-- Python `==` on scalar values: `None == None`, numbers compare by numeric
value (so an int can equal a float), strings compare by equality, and
values of different kinds are unequal. -/
def pyEq : PyVal → PyVal → Bool
  | .none, .none => true
  | .int m, .int n => decide (m = n)
  | .int m, .float q => decide ((m : ℚ) = q)
  | .float q, .int n => decide (q = (n : ℚ))
  | .float p, .float q => decide (p = q)
  | .str s, .str t => decide (s = t)
  | _, _ => false

/-- Equality test used for Python dicts keyed by strings. -/
def strEq (a b : String) : Bool := decide (a = b)

/-- Characters stripped by Python's `str.strip()` (the ASCII whitespace
set; exotic Unicode whitespace is not modelled). -/
def pyIsSpace (c : Char) : Bool :=
  c = ' ' || c = '\t' || c = '\n' || c = '\r' || c = '\x0b' || c = '\x0c'

/-- Python `str.strip()`: drop leading and trailing whitespace. -/
def pyStrip (s : String) : String :=
  String.mk (((s.toList.dropWhile pyIsSpace).reverse.dropWhile pyIsSpace).reverse)

/-- Numeric value of a run of ASCII digits, most significant first. -/
def digitsVal (cs : List Char) : ℕ :=
  cs.foldl (fun a c => 10 * a + (c.toNat - 48)) 0

/-- Consume one optional leading `+`/`-` sign. -/
def parseSign : List Char → ℤ × List Char
  | '+' :: cs => (1, cs)
  | '-' :: cs => (-1, cs)
  | cs => (1, cs)

/-- Multiply by a (possibly negative) power of ten, for exponent suffixes. -/
def applyExp (x : ℚ) (ex : ℤ) : ℚ :=
  if 0 ≤ ex then x * (10 : ℚ) ^ ex.toNat else x / (10 : ℚ) ^ (-ex).toNat

/-- Parse the text after `e`/`E` in a float literal: an optional sign and a
nonempty run of digits consuming the whole rest. -/
def parseExpPy (cs : List Char) : Option ℤ :=
  let sc := parseSign cs
  let dr := sc.2.span Char.isDigit
  if dr.1.isEmpty || !dr.2.isEmpty then Option.none
  else some (sc.1 * (digitsVal dr.1 : ℤ))

/-- Python `float(s)` on decimal literals: optional surrounding whitespace,
optional sign, digits with an optional `.` and fractional digits (at least
one digit overall), optional exponent. -/
def parseFloatPy (s : String) : Option ℚ :=
  let cs := (pyStrip s).toList
  let sc := parseSign cs
  let ir := sc.2.span Char.isDigit
  let mkF : List Char → List Char → ℚ := fun ip fp =>
    (sc.1 : ℚ) * ((digitsVal ip : ℚ) + (digitsVal fp : ℚ) / (10 : ℚ) ^ fp.length)
  match ir.2 with
  | '.' :: cs2 =>
    let fr := cs2.span Char.isDigit
    if ir.1.isEmpty && fr.1.isEmpty then Option.none
    else
      match fr.2 with
      | [] => some (mkF ir.1 fr.1)
      | e :: cs4 =>
        if e = 'e' || e = 'E' then (parseExpPy cs4).map (fun ex => applyExp (mkF ir.1 fr.1) ex)
        else Option.none
  | [] => if ir.1.isEmpty then Option.none else some (mkF ir.1 [])
  | e :: cs4 =>
    if (e = 'e' || e = 'E') && !ir.1.isEmpty then
      (parseExpPy cs4).map (fun ex => applyExp (mkF ir.1 []) ex)
    else Option.none

/-- Python `int(s)`: optional surrounding whitespace, optional sign, a
nonempty run of digits consuming the whole rest. -/
def parseIntPy (s : String) : Option ℤ :=
  let cs := (pyStrip s).toList
  let sc := parseSign cs
  let dr := sc.2.span Char.isDigit
  if dr.1.isEmpty || !dr.2.isEmpty then Option.none
  else some (sc.1 * (digitsVal dr.1 : ℤ))

/-- Python `'.' in s` for the one-character needle used by the script. -/
def pyContainsDot (s : String) : Bool := s.toList.contains '.'

/-- `convert_value` (script lines 39-52): NULL and numbers pass through; a
string with a `.` is parsed as a float if possible, a string without a `.`
is parsed as an int if possible, and otherwise the string is returned
unchanged. -/
def convert_value : PyVal → PyVal
  | .none => .none
  | .int n => .int n
  | .float q => .float q
  | .str s =>
    if pyContainsDot s then
      match parseFloatPy s with
      | some q => .float q
      | Option.none => .str s
    else
      match parseIntPy s with
      | some n => .int n
      | Option.none => .str s

/-- Python `str(...)`/f-string rendering of a scalar, used for the
`nameid_<nameid>` fallback key.  Floats are rendered in a simplified way
(exact Python float repr is out of scope; no claim depends on it). -/
def floatRepr (q : ℚ) : String :=
  if q.den = 1 then toString q.num ++ ".0" else toString q.num ++ "/" ++ toString q.den

/-- String form of a scalar as produced by a Python f-string. -/
def pyStr : PyVal → String
  | .none => "None"
  | .int n => toString n
  | .float q => floatRepr q
  | .str s => s

/-- Python-dict lookup on an association list: first binding whose key
tests equal to `k`. -/
def dGetBy (eq : κ → κ → Bool) (k : κ) : List (κ × α) → Option α
  | [] => Option.none
  | (k', v) :: rest => if eq k k' then some v else dGetBy eq k rest

/-- Python-dict assignment on an association list: replace the value of the
first binding whose key tests equal to `k` (keeping the stored key, as
CPython does), or append a new binding at the end. -/
def dSetBy (eq : κ → κ → Bool) (k : κ) (v : α) : List (κ × α) → List (κ × α)
  | [] => [(k, v)]
  | (k', w) :: rest => if eq k k' then (k', v) :: rest else (k', w) :: dSetBy eq k v rest

/-- Insert one element into a list sorted by `le`. -/
def insertBy (le : α → α → Bool) (x : α) : List α → List α
  | [] => [x]
  | y :: ys => if le x y then x :: y :: ys else y :: insertBy le x ys

/-- Insertion sort by `le`. -/
def insortBy (le : α → α → Bool) : List α → List α
  | [] => []
  | x :: xs => insertBy le x (insortBy le xs)

/-- Sort rank of a scalar in SQLite comparison order: NULL before numbers
before text. -/
def pvRank : PyVal → ℕ
  | .none => 0
  | .int _ => 1
  | .float _ => 1
  | .str _ => 2

/-- Numeric sort key of a scalar (zero outside the numeric rank). -/
def pvNum : PyVal → ℚ
  | .int n => (n : ℚ)
  | .float q => q
  | _ => 0

/-- Text sort key of a scalar (empty outside the text rank). -/
def pvText : PyVal → String
  | .str s => s
  | _ => ""

/-- The SQLite `ORDER BY` comparison on scalars: by rank, then by numeric
value, then by text. -/
def sqliteLe (a b : PyVal) : Prop :=
  pvRank a < pvRank b ∨
    (pvRank a = pvRank b ∧
      (pvNum a < pvNum b ∨ (pvNum a = pvNum b ∧ pvText a ≤ pvText b)))

instance (a b : PyVal) : Decidable (sqliteLe a b) := by
  unfold sqliteLe
  infer_instance

/-- Boolean form of `sqliteLe`, used by the sort. -/
def sqliteLeB (a b : PyVal) : Bool := decide (sqliteLe a b)

/-- The names dictionary: nameid (a `PyVal`) to (objectname, metricname). -/
abbrev NamesDict := List (PyVal × String × String)

/-- The prefixid-to-prefixname lookup dictionary. -/
abbrev PrefixDict := List (PyVal × String)

/-- The metrics mapping: prefixname to (key to value). -/
abbrev MetricsMap := List (String × List (String × PyVal))

/-- The three input tables of the database, one row per tuple:
`names(nameid, objectname, metricname)` (the two name columns may be NULL),
`prefixes(prefixid, prefixname)` and `values(prefixid, nameid, core, value)`. -/
structure StatsDB where
  names : List (PyVal × Option String × Option String)
  prefixes : List (PyVal × String)
  values : List (PyVal × PyVal × PyVal × PyVal)
  deriving DecidableEq

/-- The result of `build_resolved_metrics`: the ordered prefix-name list and
the nested metrics mapping. -/
structure ResolvedMetrics where
  prefixes : List String
  metrics : MetricsMap
  deriving DecidableEq

/-- Script line 78-79: `(col or '').strip() if col is not None else ''`.
(`s or ''` differs from `s` only at `s = ""`, where the strip also yields
`""`, so only the strip and the NULL default are visible.) -/
def stripOrEmpty (o : Option String) : String :=
  match o with
  | Option.none => ""
  | some s => pyStrip s

/-- Script lines 74-80: build the names dictionary
`nameid -> (objectname, metricname)`, with `convert_value` applied to the
nameid and both name columns trimmed (NULL defaulting to empty). -/
def buildNamesDict (rows : List (PyVal × Option String × Option String)) : NamesDict :=
  rows.foldl
    (fun acc r =>
      dSetBy pyEq (convert_value r.1) (stripOrEmpty r.2.1, stripOrEmpty r.2.2) acc) []

/-- The `ORDER BY prefixid` of script line 83, embedded as a sort by the
SQLite comparison order on the prefixid column. -/
def sortPrefixRows (rows : List (PyVal × String)) : List (PyVal × String) :=
  insortBy (fun a b => sqliteLeB a.1 b.1) rows

/-- Script lines 83-89: one pass over the sorted prefix rows building the
ordered prefix-name list and the prefixid-to-name dictionary. -/
def prefixState (rows : List (PyVal × String)) : List String × PrefixDict :=
  (sortPrefixRows rows).foldl
    (fun st r => (st.1 ++ [r.2], dSetBy pyEq (convert_value r.1) r.2 st.2)) ([], [])

/-- Script lines 92-94: initialise an empty mapping for every prefix name. -/
def initMetrics (ps : List String) : MetricsMap :=
  ps.foldl (fun m p => dSetBy strEq p [] m) []

/-- Script lines 103-105: resolve a nameid to `(objectname, metricname)`
(defaulting to `("", "unknown")`) and compose `"object.metric"`, or just
`"metric"` when the object name is empty. -/
def composedKey (names : NamesDict) (nameid : PyVal) : String :=
  let om := (dGetBy pyEq nameid names).getD ("", "unknown")
  if om.1 = "" then om.2 else om.1 ++ "." ++ om.2

/-- Script lines 103-107: the key under which a row with the given nameid is
stored, namely the composed `"object.metric"` key with the
`"nameid_<nameid>"` fallback when the composed key is empty. -/
def rowKeyFor (names : NamesDict) (nameid : PyVal) : String :=
  let key0 := composedKey names nameid
  if key0 = "" then "nameid_" ++ pyStr nameid else key0

set_option linter.unusedVariables false in
/-- Script lines 98-108, the body of the loop over the `values` rows: skip
the row when its prefixid is not in the prefix dictionary, otherwise store
the converted value at the row's key.  The `core` column is bound
(line 99) exactly as in the source and never used afterwards.  The lookup
`(dGetBy strEq pname m).getD []` models `metrics[pname]`; the default is
unreachable because every name in the prefix dictionary was initialised. -/
def processValueRow (names : NamesDict) (p2n : PrefixDict) (m : MetricsMap)
    (row : PyVal × PyVal × PyVal × PyVal) : MetricsMap :=
  let prefixid := convert_value row.1
  let nameid := convert_value row.2.1
  let core := convert_value row.2.2.1
  let value := convert_value row.2.2.2
  match dGetBy pyEq prefixid p2n with
  | Option.none => m
  | some pname =>
    let key := rowKeyFor names nameid
    dSetBy strEq pname (dSetBy strEq key value ((dGetBy strEq pname m).getD [])) m

/-- `build_resolved_metrics` (script lines 68-113): names dictionary,
ordered prefixes with their lookup dictionary, initialised metrics, then
one pass over the `values` rows. -/
def build_resolved_metrics (db : StatsDB) : ResolvedMetrics :=
  let names := buildNamesDict db.names
  let st := prefixState db.prefixes
  let m0 := initMetrics st.1
  ⟨st.1, db.values.foldl (processValueRow names st.2) m0⟩

/-- The raw database as seen by `export_database`: each of the three tables
needed for resolution is either present with its rows or absent, and there
may be further tables.  A malformed required table is modelled as absent
(both raise `sqlite3.OperationalError` when queried). -/
structure RawDB where
  namesTab : Option (List (PyVal × Option String × Option String))
  prefixesTab : Option (List (PyVal × String))
  valuesTab : Option (List (PyVal × PyVal × PyVal × PyVal))
  otherTableNames : List String
  deriving DecidableEq

/-- `get_all_tables(cursor)` is nonempty: at least one table exists. -/
def hasAnyTable (db : RawDB) : Bool :=
  db.namesTab.isSome || db.prefixesTab.isSome || db.valuesTab.isSome ||
    !db.otherTableNames.isEmpty

/-- `build_resolved_metrics` run against the raw database: querying a
missing (or malformed, see `RawDB`) required table raises
`sqlite3.OperationalError`, modelled as `Except.error`. -/
def build_resolved_metricsE (db : RawDB) : Except Unit ResolvedMetrics :=
  match db.namesTab, db.prefixesTab, db.valuesTab with
  | some ns, some ps, some vs => .ok (build_resolved_metrics ⟨ns, ps, vs⟩)
  | _, _, _ => .error ()

/-- The exported document (raw-table dump omitted as out of scope): the
database path, and the `prefixes` / `metrics` entries, each `Option.none`
when the key is absent from the document. -/
structure ExportResult where
  database : String
  prefixesOut : Option (List String)
  metricsOut : Option MetricsMap
  deriving DecidableEq

/-- `export_database` (script lines 116-134, without the raw-table dump):
when the database has at least one table, try the resolution and on
`OperationalError` fall back to an empty prefix list and empty metrics
mapping; when the database has no tables at all, the two keys are not set
in the document. -/
def export_database (sqlite_file : String) (db : RawDB) : ExportResult :=
  if hasAnyTable db then
    match build_resolved_metricsE db with
    | .ok r => ⟨sqlite_file, some r.prefixes, some r.metrics⟩
    | .error _ => ⟨sqlite_file, some [], some []⟩
  else ⟨sqlite_file, Option.none, Option.none⟩

/-! ## Basic properties of the equality tests and the dictionary model -/

theorem strEq_refl (a : String) : strEq a a = true := by
  simp [strEq]

theorem strEq_symm (a b : String) : strEq a b = strEq b a := by
  simp [strEq, eq_comm]

theorem strEq_trans (a b c : String) (h1 : strEq a b = true) (h2 : strEq b c = true) :
    strEq a c = true := by
  simp only [strEq, decide_eq_true_eq] at h1 h2 ⊢
  exact h1.trans h2

theorem strEq_eq_true_iff (a b : String) : strEq a b = true ↔ a = b := by
  simp [strEq]

theorem pyEq_refl (a : PyVal) : pyEq a a = true := by
  cases a <;> simp [pyEq]

theorem pyEq_symm (a b : PyVal) : pyEq a b = pyEq b a := by
  cases a <;> cases b <;> simp [pyEq, eq_comm]

theorem pyEq_trans (a b c : PyVal) (h1 : pyEq a b = true) (h2 : pyEq b c = true) :
    pyEq a c = true := by
  cases a <;> cases b <;> cases c <;> simp_all [pyEq]

theorem dGetBy_dSetBy_self {κ α : Type} (eq : κ → κ → Bool)
    (hsy : ∀ a b, eq a b = eq b a)
    (htr : ∀ a b c, eq a b = true → eq b c = true → eq a c = true)
    (k k' : κ) (hk : eq k k' = true) (v : α) (l : List (κ × α)) :
    dGetBy eq k (dSetBy eq k' v l) = some v := by
  induction l with
  | nil => simp [dGetBy, dSetBy, hk]
  | cons hd tl ih =>
    obtain ⟨k0, w⟩ := hd
    cases h0 : eq k' k0 with
    | true =>
      have h1 : eq k k0 = true := htr _ _ _ hk h0
      simp [dSetBy, h0, dGetBy, h1]
    | false =>
      have h1 : eq k k0 = false := by
        cases h2 : eq k k0 with
        | false => rfl
        | true =>
          have hks : eq k' k = true := (hsy k' k).trans hk
          exact absurd (htr _ _ _ hks h2) (by simp [h0])
      simp [dSetBy, h0, dGetBy, h1, ih]

theorem dGetBy_dSetBy_ne {κ α : Type} (eq : κ → κ → Bool)
    (hsy : ∀ a b, eq a b = eq b a)
    (htr : ∀ a b c, eq a b = true → eq b c = true → eq a c = true)
    (k k' : κ) (hk : eq k k' = false) (v : α) (l : List (κ × α)) :
    dGetBy eq k (dSetBy eq k' v l) = dGetBy eq k l := by
  induction l with
  | nil => simp [dGetBy, dSetBy, hk]
  | cons hd tl ih =>
    obtain ⟨k0, w⟩ := hd
    cases h0 : eq k' k0 with
    | true =>
      have h1 : eq k k0 = false := by
        cases h2 : eq k k0 with
        | false => rfl
        | true =>
          have h3 : eq k0 k' = true := (hsy k0 k').trans h0
          exact absurd (htr _ _ _ h2 h3) (by simp [hk])
      simp [dSetBy, h0, dGetBy, h1]
    | false =>
      cases h1 : eq k k0 with
      | true => simp [dSetBy, h0, dGetBy, h1]
      | false => simp [dSetBy, h0, dGetBy, h1, ih]

/-! ## Properties of the insertion sort and the SQLite ordering -/

theorem insertBy_perm {α : Type} (le : α → α → Bool) (x : α) (l : List α) :
    (insertBy le x l).Perm (x :: l) := by
  induction l with
  | nil => simp [insertBy]
  | cons y ys ih =>
    cases hxy : le x y with
    | true => simp [insertBy, hxy]
    | false =>
      simp only [insertBy, hxy, Bool.false_eq_true, if_false]
      exact (ih.cons y).trans (List.Perm.swap x y ys)

theorem insortBy_perm {α : Type} (le : α → α → Bool) (l : List α) :
    (insortBy le l).Perm l := by
  induction l with
  | nil => simp [insortBy]
  | cons x xs ih =>
    exact (insertBy_perm le x (insortBy le xs)).trans (ih.cons x)

theorem insertBy_pairwise {α : Type} (le : α → α → Bool)
    (htot : ∀ a b, le a b = true ∨ le b a = true)
    (htr : ∀ a b c, le a b = true → le b c = true → le a c = true)
    (x : α) (l : List α) (hl : l.Pairwise (fun a b => le a b = true)) :
    (insertBy le x l).Pairwise (fun a b => le a b = true) := by
  induction l with
  | nil => simp [insertBy]
  | cons y ys ih =>
    rw [List.pairwise_cons] at hl
    obtain ⟨hy, hys⟩ := hl
    cases hxy : le x y with
    | true =>
      simp only [insertBy, hxy, if_true]
      refine List.pairwise_cons.mpr ⟨?_, List.pairwise_cons.mpr ⟨hy, hys⟩⟩
      intro z hz
      rcases List.mem_cons.mp hz with rfl | hz'
      · exact hxy
      · exact htr _ _ _ hxy (hy z hz')
    | false =>
      have hyx : le y x = true := by
        rcases htot x y with h | h
        · exact absurd h (by simp [hxy])
        · exact h
      simp only [insertBy, hxy, Bool.false_eq_true, if_false]
      refine List.pairwise_cons.mpr ⟨?_, ih hys⟩
      intro z hz
      have hz' : z = x ∨ z ∈ ys := by
        have hmem := (insertBy_perm le x ys).mem_iff.mp hz
        simpa using hmem
      rcases hz' with rfl | hz'
      · exact hyx
      · exact hy z hz'

theorem insortBy_pairwise {α : Type} (le : α → α → Bool)
    (htot : ∀ a b, le a b = true ∨ le b a = true)
    (htr : ∀ a b c, le a b = true → le b c = true → le a c = true)
    (l : List α) : (insortBy le l).Pairwise (fun a b => le a b = true) := by
  induction l with
  | nil => simp [insortBy]
  | cons x xs ih => exact insertBy_pairwise le htot htr x (insortBy le xs) ih

theorem sqliteLe_total (a b : PyVal) : sqliteLe a b ∨ sqliteLe b a := by
  unfold sqliteLe
  rcases lt_trichotomy (pvRank a) (pvRank b) with h | h | h
  · exact Or.inl (Or.inl h)
  · rcases lt_trichotomy (pvNum a) (pvNum b) with h2 | h2 | h2
    · exact Or.inl (Or.inr ⟨h, Or.inl h2⟩)
    · rcases le_total (pvText a) (pvText b) with h3 | h3
      · exact Or.inl (Or.inr ⟨h, Or.inr ⟨h2, h3⟩⟩)
      · exact Or.inr (Or.inr ⟨h.symm, Or.inr ⟨h2.symm, h3⟩⟩)
    · exact Or.inr (Or.inr ⟨h.symm, Or.inl h2⟩)
  · exact Or.inr (Or.inl h)

theorem sqliteLe_trans (a b c : PyVal) (h1 : sqliteLe a b) (h2 : sqliteLe b c) :
    sqliteLe a c := by
  unfold sqliteLe at h1 h2 ⊢
  rcases h1 with h1 | ⟨e1, h1⟩
  · rcases h2 with h2 | ⟨e2, h2⟩
    · exact Or.inl (h1.trans h2)
    · exact Or.inl (by rw [← e2]; exact h1)
  · rcases h2 with h2 | ⟨e2, h2⟩
    · exact Or.inl (by rw [e1]; exact h2)
    · refine Or.inr ⟨e1.trans e2, ?_⟩
      rcases h1 with h1 | ⟨f1, h1⟩
      · rcases h2 with h2 | ⟨f2, h2⟩
        · exact Or.inl (h1.trans h2)
        · exact Or.inl (by rw [← f2]; exact h1)
      · rcases h2 with h2 | ⟨f2, h2⟩
        · exact Or.inl (by rw [f1]; exact h2)
        · exact Or.inr ⟨f1.trans f2, h1.trans h2⟩

/-! ## Step and fold lemmas about the resolution loop -/

theorem processValueRow_skip (names : NamesDict) (p2n : PrefixDict) (m : MetricsMap)
    (row : PyVal × PyVal × PyVal × PyVal)
    (hp : dGetBy pyEq (convert_value row.1) p2n = Option.none) :
    processValueRow names p2n m row = m := by
  simp [processValueRow, hp]

theorem processValueRow_store (names : NamesDict) (p2n : PrefixDict) (m : MetricsMap)
    (row : PyVal × PyVal × PyVal × PyVal) (pname : String)
    (hp : dGetBy pyEq (convert_value row.1) p2n = some pname) :
    processValueRow names p2n m row =
      dSetBy strEq pname
        (dSetBy strEq (rowKeyFor names (convert_value row.2.1))
          (convert_value row.2.2.2) ((dGetBy strEq pname m).getD [])) m := by
  simp [processValueRow, hp]

theorem processValueRow_stored_lookup (names : NamesDict) (p2n : PrefixDict)
    (m : MetricsMap) (row : PyVal × PyVal × PyVal × PyVal) (pname : String)
    (hp : dGetBy pyEq (convert_value row.1) p2n = some pname) :
    dGetBy strEq (rowKeyFor names (convert_value row.2.1))
      ((dGetBy strEq pname (processValueRow names p2n m row)).getD []) =
      some (convert_value row.2.2.2) := by
  rw [processValueRow_store names p2n m row pname hp,
    dGetBy_dSetBy_self strEq strEq_symm strEq_trans pname pname (strEq_refl pname),
    Option.getD_some,
    dGetBy_dSetBy_self strEq strEq_symm strEq_trans _ _ (strEq_refl _)]

theorem processValueRow_isSome (names : NamesDict) (p2n : PrefixDict) (m : MetricsMap)
    (row : PyVal × PyVal × PyVal × PyVal) (x : String)
    (h : (dGetBy strEq x m).isSome) :
    (dGetBy strEq x (processValueRow names p2n m row)).isSome := by
  cases hp : dGetBy pyEq (convert_value row.1) p2n with
  | none => rw [processValueRow_skip names p2n m row hp]; exact h
  | some pname =>
    rw [processValueRow_store names p2n m row pname hp]
    cases hxp : strEq x pname with
    | true =>
      rw [dGetBy_dSetBy_self strEq strEq_symm strEq_trans x pname hxp]
      simp
    | false =>
      rw [dGetBy_dSetBy_ne strEq strEq_symm strEq_trans x pname hxp]
      exact h

theorem processValueRow_unref (names : NamesDict) (p2n : PrefixDict) (m : MetricsMap)
    (row : PyVal × PyVal × PyVal × PyVal) (x : String)
    (h : dGetBy pyEq (convert_value row.1) p2n ≠ some x) :
    dGetBy strEq x (processValueRow names p2n m row) = dGetBy strEq x m := by
  cases hp : dGetBy pyEq (convert_value row.1) p2n with
  | none => rw [processValueRow_skip names p2n m row hp]
  | some pname =>
    have hxp : strEq x pname = false := by
      cases hq : strEq x pname with
      | false => rfl
      | true =>
        have hx : x = pname := (strEq_eq_true_iff x pname).mp hq
        rw [hx] at h
        exact absurd hp h
    rw [processValueRow_store names p2n m row pname hp,
      dGetBy_dSetBy_ne strEq strEq_symm strEq_trans x pname hxp]

theorem processValueRow_inner_unchanged (names : NamesDict) (p2n : PrefixDict)
    (m : MetricsMap) (row : PyVal × PyVal × PyVal × PyVal) (pname key : String)
    (h : dGetBy pyEq (convert_value row.1) p2n = some pname →
      rowKeyFor names (convert_value row.2.1) ≠ key) :
    dGetBy strEq key ((dGetBy strEq pname (processValueRow names p2n m row)).getD []) =
      dGetBy strEq key ((dGetBy strEq pname m).getD []) := by
  cases hp : dGetBy pyEq (convert_value row.1) p2n with
  | none => rw [processValueRow_skip names p2n m row hp]
  | some pn =>
    rw [processValueRow_store names p2n m row pn hp]
    cases hpn : strEq pname pn with
    | false => rw [dGetBy_dSetBy_ne strEq strEq_symm strEq_trans pname pn hpn]
    | true =>
      have hpn' : pname = pn := (strEq_eq_true_iff pname pn).mp hpn
      subst hpn'
      rw [dGetBy_dSetBy_self strEq strEq_symm strEq_trans pname pname (strEq_refl pname),
        Option.getD_some]
      have hkey : rowKeyFor names (convert_value row.2.1) ≠ key := h hp
      have hkeyb : strEq key (rowKeyFor names (convert_value row.2.1)) = false := by
        cases hq : strEq key (rowKeyFor names (convert_value row.2.1)) with
        | false => rfl
        | true => exact absurd ((strEq_eq_true_iff _ _).mp hq).symm hkey
      rw [dGetBy_dSetBy_ne strEq strEq_symm strEq_trans key _ hkeyb]

theorem foldl_processValueRow_isSome (names : NamesDict) (p2n : PrefixDict)
    (vs : List (PyVal × PyVal × PyVal × PyVal)) (x : String) :
    ∀ m : MetricsMap, (dGetBy strEq x m).isSome →
      (dGetBy strEq x (vs.foldl (processValueRow names p2n) m)).isSome := by
  induction vs with
  | nil => intro m h; simpa using h
  | cons r rest ih =>
    intro m h
    simp only [List.foldl_cons]
    exact ih _ (processValueRow_isSome names p2n m r x h)

theorem foldl_processValueRow_unref (names : NamesDict) (p2n : PrefixDict)
    (vs : List (PyVal × PyVal × PyVal × PyVal)) (x : String) :
    ∀ m : MetricsMap, (∀ r ∈ vs, dGetBy pyEq (convert_value r.1) p2n ≠ some x) →
      dGetBy strEq x (vs.foldl (processValueRow names p2n) m) = dGetBy strEq x m := by
  induction vs with
  | nil => intro m _; simp
  | cons r rest ih =>
    intro m h
    simp only [List.foldl_cons]
    rw [ih _ (fun w hw => h w (List.mem_cons_of_mem r hw)),
      processValueRow_unref names p2n m r x (h r (List.mem_cons_self r rest))]

theorem foldl_processValueRow_inner_unchanged (names : NamesDict) (p2n : PrefixDict)
    (vs : List (PyVal × PyVal × PyVal × PyVal)) (pname key : String) :
    ∀ m : MetricsMap,
      (∀ r ∈ vs, dGetBy pyEq (convert_value r.1) p2n = some pname →
        rowKeyFor names (convert_value r.2.1) ≠ key) →
      dGetBy strEq key ((dGetBy strEq pname (vs.foldl (processValueRow names p2n) m)).getD []) =
        dGetBy strEq key ((dGetBy strEq pname m).getD []) := by
  induction vs with
  | nil => intro m _; simp
  | cons r rest ih =>
    intro m h
    simp only [List.foldl_cons]
    rw [ih _ (fun w hw => h w (List.mem_cons_of_mem r hw)),
      processValueRow_inner_unchanged names p2n m r pname key (h r (List.mem_cons_self r rest))]

/-! ## Lemmas about the dictionary builders -/

theorem namesFold_origin (rows : List (PyVal × Option String × Option String)) :
    ∀ (acc : NamesDict) (k : PyVal) (v : String × String),
      dGetBy pyEq k
        (rows.foldl
          (fun acc r =>
            dSetBy pyEq (convert_value r.1) (stripOrEmpty r.2.1, stripOrEmpty r.2.2) acc)
          acc) = some v →
      (∃ r ∈ rows, pyEq k (convert_value r.1) = true ∧
        (stripOrEmpty r.2.1, stripOrEmpty r.2.2) = v) ∨
      dGetBy pyEq k acc = some v := by
  induction rows with
  | nil => intro acc k v h; exact Or.inr h
  | cons r rest ih =>
    intro acc k v h
    simp only [List.foldl_cons] at h
    rcases ih _ k v h with ⟨w, hw, he, hv⟩ | hacc
    · exact Or.inl ⟨w, List.mem_cons_of_mem r hw, he, hv⟩
    · cases hk : pyEq k (convert_value r.1) with
      | true =>
        rw [dGetBy_dSetBy_self pyEq pyEq_symm pyEq_trans k (convert_value r.1) hk] at hacc
        exact Or.inl ⟨r, List.mem_cons_self r rest, hk, (Option.some.injEq _ _).mp hacc⟩
      | false =>
        rw [dGetBy_dSetBy_ne pyEq pyEq_symm pyEq_trans k (convert_value r.1) hk] at hacc
        exact Or.inr hacc

theorem initMetrics_fold_get (ps : List String) :
    ∀ (acc : MetricsMap) (x : String),
      (x ∈ ps ∨ dGetBy strEq x acc = some []) →
      dGetBy strEq x (ps.foldl (fun m p => dSetBy strEq p [] m) acc) = some [] := by
  induction ps with
  | nil =>
    intro acc x h
    rcases h with h | h
    · exact absurd h (List.not_mem_nil x)
    · simpa using h
  | cons p rest ih =>
    intro acc x h
    simp only [List.foldl_cons]
    apply ih
    rcases h with hmem | hacc
    · rcases List.mem_cons.mp hmem with rfl | hmem'
      · exact Or.inr (dGetBy_dSetBy_self strEq strEq_symm strEq_trans x x (strEq_refl x) [] acc)
      · exact Or.inl hmem'
    · cases hxp : strEq x p with
      | true =>
        exact Or.inr (dGetBy_dSetBy_self strEq strEq_symm strEq_trans x p hxp [] acc)
      | false =>
        rw [← dGetBy_dSetBy_ne strEq strEq_symm strEq_trans x p hxp ([] : List (String × PyVal)) acc] at hacc
        exact Or.inr hacc

theorem initMetrics_get (ps : List String) (x : String) (hx : x ∈ ps) :
    dGetBy strEq x (initMetrics ps) = some [] :=
  initMetrics_fold_get ps [] x (Or.inl hx)

theorem prefixFold_fst (l : List (PyVal × String)) :
    ∀ acc : List String × PrefixDict,
      (l.foldl
        (fun st r => (st.1 ++ [r.2], dSetBy pyEq (convert_value r.1) r.2 st.2)) acc).1 =
      acc.1 ++ l.map Prod.snd := by
  induction l with
  | nil => intro acc; simp
  | cons r rest ih =>
    intro acc
    simp only [List.foldl_cons, List.map_cons]
    rw [ih]
    simp

theorem prefixState_fst (rows : List (PyVal × String)) :
    (prefixState rows).1 = (sortPrefixRows rows).map Prod.snd := by
  unfold prefixState
  rw [prefixFold_fst]
  simp

/-! ## The claims -/

/-- C1: for a value row whose prefix identifier resolves, the output key is
`objectName ++ "." ++ metricName` when the resolved objectName is non-empty
and `metricName` alone when it is empty, with the literal
`"nameid_" ++ nameIdentifier` used instead when that composed key is empty;
the row's converted value is stored under that key. -/
theorem c1_key_composition (names : NamesDict) (p2n : PrefixDict) (m : MetricsMap)
    (p n c v : PyVal) (pname obj metric : String)
    (hp : dGetBy pyEq (convert_value p) p2n = some pname)
    (hn : (dGetBy pyEq (convert_value n) names).getD ("", "unknown") = (obj, metric)) :
    dGetBy strEq
      (if (if obj = "" then metric else obj ++ "." ++ metric) = ""
        then "nameid_" ++ pyStr (convert_value n)
        else if obj = "" then metric else obj ++ "." ++ metric)
      ((dGetBy strEq pname (processValueRow names p2n m (p, n, c, v))).getD []) =
      some (convert_value v) := by
  have hck : composedKey names (convert_value n) =
      if obj = "" then metric else obj ++ "." ++ metric := by
    simp only [composedKey, hn]
  have hk : rowKeyFor names (convert_value n) =
      if (if obj = "" then metric else obj ++ "." ++ metric) = ""
        then "nameid_" ++ pyStr (convert_value n)
        else if obj = "" then metric else obj ++ "." ++ metric := by
    simp only [rowKeyFor, hck]
  rw [← hk]
  exact processValueRow_stored_lookup names p2n m (p, n, c, v) pname hp

theorem c1_key_composition_witness :
    dGetBy strEq "thread.time"
      ((dGetBy strEq "roi"
        (processValueRow [(.int 1, ("thread", "time"))] [(.int 10, "roi")] [("roi", [])]
          (.int 10, .int 1, .int 0, .int 7))).getD []) = some (.int 7) := by
  have h := c1_key_composition [(.int 1, ("thread", "time"))] [(.int 10, "roi")] [("roi", [])]
    (.int 10) (.int 1) (.int 0) (.int 7) "roi" "thread" "time" (by decide) (by decide)
  simpa using h

/-- C2: a value row whose prefix identifier is absent from the prefix
dictionary contributes nothing: the resolution result is the same as if the
row were not in the `values` table at all, and no error is raised. -/
theorem c2_missing_prefixid_dropped (db : StatsDB)
    (vs1 vs2 : List (PyVal × PyVal × PyVal × PyVal)) (r : PyVal × PyVal × PyVal × PyVal)
    (hvals : db.values = vs1 ++ r :: vs2)
    (hp : dGetBy pyEq (convert_value r.1) (prefixState db.prefixes).2 = Option.none) :
    build_resolved_metrics db = build_resolved_metrics ⟨db.names, db.prefixes, vs1 ++ vs2⟩ := by
  obtain ⟨ns, ps, vs⟩ := db
  simp only at hvals hp ⊢
  subst hvals
  simp only [build_resolved_metrics]
  congr 1
  rw [List.foldl_append, List.foldl_append, List.foldl_cons,
    processValueRow_skip _ _ _ _ hp]

theorem c2_missing_prefixid_dropped_witness :
    build_resolved_metrics ⟨[], [(.int 10, "roi")], [(.int 99, .int 1, .int 0, .int 5)]⟩ =
      build_resolved_metrics ⟨[], [(.int 10, "roi")], []⟩ :=
  c2_missing_prefixid_dropped ⟨[], [(.int 10, "roi")], [(.int 99, .int 1, .int 0, .int 5)]⟩
    [] [] (.int 99, .int 1, .int 0, .int 5) rfl (by decide)

/-- C3: when several value rows resolve to the same (prefix name, key) pair,
the metrics mapping retains exactly the converted value of the row processed
last: for arbitrary earlier rows `vs` (which may write the same key with
other values) and later rows `ws` that do not write this (prefix name, key)
pair, the final lookup yields the value of the middle row. -/
theorem c3_last_write_wins (names : NamesDict) (p2n : PrefixDict)
    (vs ws : List (PyVal × PyVal × PyVal × PyVal)) (m : MetricsMap)
    (p n c v : PyVal) (pname : String)
    (hp : dGetBy pyEq (convert_value p) p2n = some pname)
    (hws : ∀ w ∈ ws, dGetBy pyEq (convert_value w.1) p2n = some pname →
      rowKeyFor names (convert_value w.2.1) ≠ rowKeyFor names (convert_value n)) :
    dGetBy strEq (rowKeyFor names (convert_value n))
      ((dGetBy strEq pname
        ((vs ++ (p, n, c, v) :: ws).foldl (processValueRow names p2n) m)).getD []) =
      some (convert_value v) := by
  rw [List.foldl_append, List.foldl_cons,
    foldl_processValueRow_inner_unchanged names p2n ws pname
      (rowKeyFor names (convert_value n)) _ hws]
  exact processValueRow_stored_lookup names p2n _ (p, n, c, v) pname hp

theorem c3_last_write_wins_witness :
    dGetBy strEq "thread.time"
      ((dGetBy strEq "roi"
        (([(PyVal.int 10, PyVal.int 1, PyVal.int 0, PyVal.int 1)] ++
            (PyVal.int 10, PyVal.int 1, PyVal.int 0, PyVal.int 2) :: []).foldl
          (processValueRow [(.int 1, ("thread", "time"))] [(.int 10, "roi")])
          [("roi", [])])).getD []) = some (.int 2) := by
  have h := c3_last_write_wins [(.int 1, ("thread", "time"))] [(.int 10, "roi")]
    [(.int 10, .int 1, .int 0, .int 1)] [] [("roi", [])]
    (.int 10) (.int 1) (.int 0) (.int 2) "roi" (by decide) (by simp)
  rw [show rowKeyFor [(.int 1, ("thread", "time"))] (convert_value (.int 1)) = "thread.time"
    from by decide] at h
  exact h

/-- C4: stored values undergo best-effort coercion: a string with a decimal
separator that parses as a float becomes a float, a string without one that
parses as an integer becomes an integer, any other string stays a string;
and the spec's example database yields `metrics = roi -> thread.time -> 3.5`
with `3.5` a float. -/
theorem c4_value_coercion :
    (∀ s q, pyContainsDot s = true → parseFloatPy s = some q →
      convert_value (.str s) = .float q) ∧
    (∀ s n, pyContainsDot s = false → parseIntPy s = some n →
      convert_value (.str s) = .int n) ∧
    (∀ s, (pyContainsDot s = true → parseFloatPy s = Option.none) →
      (pyContainsDot s = false → parseIntPy s = Option.none) →
      convert_value (.str s) = .str s) ∧
    build_resolved_metrics
      ⟨[(.int 1, some "thread", some "time")], [(.int 10, "roi")],
        [(.int 10, .int 1, .int 0, .str "3.5")]⟩ =
      ⟨["roi"], [("roi", [("thread.time", .float (7 / 2))])]⟩ := by
  refine ⟨?_, ?_, ?_, ?_⟩
  · intro s q h1 h2
    simp [convert_value, h1, h2]
  · intro s n h1 h2
    simp [convert_value, h1, h2]
  · intro s h1 h2
    cases hc : pyContainsDot s with
    | true => simp [convert_value, hc, h1 hc]
    | false => simp [convert_value, hc, h2 hc]
  · with_unfolding_all decide

theorem c4_value_coercion_witness :
    convert_value (.str "42") = .int 42 :=
  c4_value_coercion.2.1 "42" 42 (by decide) (by decide)

/-- C5, as claimed: false.  A value row with an unknown name identifier has
its value coerced like every other row, not taken verbatim: with the single
row `(10, 1, 0, "12")` and an empty names table, the stored value under the
sentinel key `"unknown"` is the integer 12, not the string `"12"`. -/
theorem c5_counterexample :
    dGetBy strEq "unknown"
      ((dGetBy strEq "roi"
        (build_resolved_metrics ⟨[], [(.int 10, "roi")],
          [(.int 10, .int 1, .int 0, .str "12")]⟩).metrics).getD []) = some (.int 12) ∧
    PyVal.int 12 ≠ PyVal.str "12" := by
  decide

/-- C5, amended: a value row with a resolvable prefix identifier and a name
identifier absent from the names dictionary is not dropped: it is stored
under the sentinel key `"unknown"` with the row's value after the standard
best-effort coercion (verbatim whenever the value is already non-string). -/
theorem c5_unknown_name_sentinel (names : NamesDict) (p2n : PrefixDict) (m : MetricsMap)
    (p n c v : PyVal) (pname : String)
    (hp : dGetBy pyEq (convert_value p) p2n = some pname)
    (hn : dGetBy pyEq (convert_value n) names = Option.none) :
    dGetBy strEq "unknown"
      ((dGetBy strEq pname (processValueRow names p2n m (p, n, c, v))).getD []) =
      some (convert_value v) := by
  have hk : rowKeyFor names (convert_value n) = "unknown" := by
    simp [rowKeyFor, composedKey, hn]
  rw [← hk]
  exact processValueRow_stored_lookup names p2n m (p, n, c, v) pname hp

theorem c5_unknown_name_sentinel_witness :
    dGetBy strEq "unknown"
      ((dGetBy strEq "roi"
        (processValueRow [] [(.int 10, "roi")] [("roi", [])]
          (.int 10, .int 5, .int 0, .int 3))).getD []) = some (.int 3) :=
  c5_unknown_name_sentinel [] [(.int 10, "roi")] [("roi", [])]
    (.int 10) (.int 5) (.int 0) (.int 3) "roi" (by decide) (by decide)

/-- C6: every prefix row of the prefix table yields an entry of the metrics
mapping under its prefix name, and when no value row resolves to that prefix
name the entry is the empty mapping. -/
theorem c6_prefixes_always_present (db : StatsDB) (pr : PyVal × String)
    (hpr : pr ∈ db.prefixes) :
    ∃ inner, dGetBy strEq pr.2 (build_resolved_metrics db).metrics = some inner ∧
      ((∀ r ∈ db.values,
          dGetBy pyEq (convert_value r.1) (prefixState db.prefixes).2 ≠ some pr.2) →
        inner = []) := by
  have hmem : pr.2 ∈ (prefixState db.prefixes).1 := by
    rw [prefixState_fst]
    exact List.mem_map_of_mem Prod.snd ((insortBy_perm _ db.prefixes).mem_iff.mpr hpr)
  have hinit : dGetBy strEq pr.2 (initMetrics (prefixState db.prefixes).1) = some [] :=
    initMetrics_get _ _ hmem
  have hb : (build_resolved_metrics db).metrics =
      db.values.foldl
        (processValueRow (buildNamesDict db.names) (prefixState db.prefixes).2)
        (initMetrics (prefixState db.prefixes).1) := rfl
  rw [hb]
  have hsome := foldl_processValueRow_isSome (buildNamesDict db.names)
    (prefixState db.prefixes).2 db.values pr.2 _ (by rw [hinit]; rfl)
  obtain ⟨inner, hi⟩ := Option.isSome_iff_exists.mp hsome
  refine ⟨inner, hi, ?_⟩
  intro href
  have hunref := foldl_processValueRow_unref (buildNamesDict db.names)
    (prefixState db.prefixes).2 db.values pr.2
    (initMetrics (prefixState db.prefixes).1) href
  rw [hunref, hinit] at hi
  exact ((Option.some.injEq _ _).mp hi).symm

theorem c6_prefixes_always_present_witness :
    ∃ inner,
      dGetBy strEq "roi"
        (build_resolved_metrics ⟨[], [(.int 10, "roi")], []⟩).metrics = some inner ∧
      ((∀ r ∈ ([] : List (PyVal × PyVal × PyVal × PyVal)),
          dGetBy pyEq (convert_value r.1) (prefixState [(.int 10, "roi")]).2 ≠ some "roi") →
        inner = []) :=
  c6_prefixes_always_present ⟨[], [(.int 10, "roi")], []⟩ (.int 10, "roi") (by decide)

/-- C7: the output prefixes list is the prefix names of a permutation of the
prefix rows that is sorted ascending by prefix identifier (in the SQLite
comparison order used by `ORDER BY prefixid`). -/
theorem c7_prefixes_sorted (db : StatsDB) :
    ∃ rows', db.prefixes.Perm rows' ∧
      (build_resolved_metrics db).prefixes = rows'.map Prod.snd ∧
      rows'.Pairwise (fun a b => sqliteLe a.1 b.1) := by
  refine ⟨sortPrefixRows db.prefixes, ?_, ?_, ?_⟩
  · exact (insortBy_perm _ db.prefixes).symm
  · have hb : (build_resolved_metrics db).prefixes = (prefixState db.prefixes).1 := rfl
    rw [hb, prefixState_fst]
  · have htot : ∀ a b : PyVal × String,
        sqliteLeB a.1 b.1 = true ∨ sqliteLeB b.1 a.1 = true := by
      intro a b
      rcases sqliteLe_total a.1 b.1 with h | h
      · exact Or.inl (decide_eq_true h)
      · exact Or.inr (decide_eq_true h)
    have htr : ∀ a b c : PyVal × String, sqliteLeB a.1 b.1 = true →
        sqliteLeB b.1 c.1 = true → sqliteLeB a.1 c.1 = true := by
      intro a b c h1 h2
      exact decide_eq_true (sqliteLe_trans _ _ _ (of_decide_eq_true h1) (of_decide_eq_true h2))
    have hp := insortBy_pairwise _ htot htr db.prefixes
    exact hp.imp (fun h => of_decide_eq_true h)

/-- C8, as claimed: false.  For a database with no tables at all (so the
tables required for resolution are certainly absent), the exported document
does not contain the `prefixes` and `metrics` keys, rather than containing
them with empty values. -/
theorem c8_counterexample :
    (export_database "sim.stats.sqlite3"
      ⟨Option.none, Option.none, Option.none, []⟩).prefixesOut = Option.none ∧
    (export_database "sim.stats.sqlite3"
      ⟨Option.none, Option.none, Option.none, []⟩).metricsOut = Option.none := by
  decide

/-- C8, amended: when the database contains at least one table but a table
required for resolution is absent (or malformed, modelled alike), the export
does not abort: the document reports an empty prefix list and an empty
metrics mapping. -/
theorem c8_empty_on_missing_tables (path : String) (db : RawDB)
    (hsome : hasAnyTable db = true)
    (hmiss : db.namesTab = Option.none ∨ db.prefixesTab = Option.none ∨
      db.valuesTab = Option.none) :
    export_database path db = ⟨path, some [], some []⟩ := by
  have herr : build_resolved_metricsE db = .error () := by
    obtain ⟨nt, pt, vt, ot⟩ := db
    cases nt <;> cases pt <;> cases vt <;> simp_all [build_resolved_metricsE]
  simp [export_database, hsome, herr]

theorem c8_empty_on_missing_tables_witness :
    export_database "sim.stats.sqlite3"
      ⟨Option.none, Option.none, Option.none, ["snapshot"]⟩ =
      ⟨"sim.stats.sqlite3", some [], some []⟩ :=
  c8_empty_on_missing_tables "sim.stats.sqlite3"
    ⟨Option.none, Option.none, Option.none, ["snapshot"]⟩ (by decide) (Or.inl rfl)

/-- C9, as claimed: false.  Two databases identical except for the `core`
column of their single value row produce identical resolution results, so
the output key cannot depend on the core column. -/
theorem c9_counterexample :
    build_resolved_metrics
      ⟨[(.int 1, some "thread", some "time")], [(.int 10, "roi")],
        [(.int 10, .int 1, .int 0, .int 7)]⟩ =
    build_resolved_metrics
      ⟨[(.int 1, some "thread", some "time")], [(.int 10, "roi")],
        [(.int 10, .int 1, .int 99, .int 7)]⟩ := by
  decide

/-- C9, amended: the `core` column is read and converted but never used: the
processing of a value row, and in particular the key under which its value
is stored, is independent of the core column (any `[core]` text in keys
comes from the metric name itself). -/
theorem c9_core_ignored (names : NamesDict) (p2n : PrefixDict) (m : MetricsMap)
    (p n c c' v : PyVal) :
    processValueRow names p2n m (p, n, c, v) = processValueRow names p2n m (p, n, c', v) := rfl

/-- C10: a value row whose name identifier is absent from the names
dictionary gets the composed key `"unknown"` (never empty); and an empty
composed key — the only way to reach the `"nameid_"` fallback — can arise
only from a names-table row matching the identifier whose object name and
metric name are both blank after whitespace trimming. -/
theorem c10_fallback_only_blank_entry (rows : List (PyVal × Option String × Option String))
    (nid : PyVal) :
    (dGetBy pyEq nid (buildNamesDict rows) = Option.none →
      composedKey (buildNamesDict rows) nid = "unknown") ∧
    (composedKey (buildNamesDict rows) nid = "" →
      dGetBy pyEq nid (buildNamesDict rows) = some ("", "") ∧
      ∃ r ∈ rows, pyEq nid (convert_value r.1) = true ∧
        stripOrEmpty r.2.1 = "" ∧ stripOrEmpty r.2.2 = "") := by
  constructor
  · intro h
    simp [composedKey, h]
  · intro h
    cases hg : dGetBy pyEq nid (buildNamesDict rows) with
    | none =>
      rw [show composedKey (buildNamesDict rows) nid = "unknown" from by simp [composedKey, hg]]
        at h
      exact absurd h (by decide)
    | some om =>
      obtain ⟨o, mtr⟩ := om
      have hcomp : (if o = "" then mtr else o ++ "." ++ mtr) = "" := by
        rw [show composedKey (buildNamesDict rows) nid =
          if o = "" then mtr else o ++ "." ++ mtr from by simp [composedKey, hg]] at h
        exact h
      by_cases ho : o = ""
      · subst ho
        rw [if_pos rfl] at hcomp
        subst hcomp
        refine ⟨rfl, ?_⟩
        have horig := namesFold_origin rows [] nid ("", "") hg
        rcases horig with ⟨r, hr, he, hv⟩ | habs
        · exact ⟨r, hr, he, congrArg Prod.fst hv, congrArg Prod.snd hv⟩
        · simp [dGetBy] at habs
      · exfalso
        rw [if_neg ho] at hcomp
        have hlen := congrArg String.length hcomp
        rw [String.length_append, String.length_append] at hlen
        have h1 : ("." : String).length = 1 := rfl
        have h0 : ("" : String).length = 0 := rfl
        rw [h1, h0] at hlen
        omega

theorem c10_fallback_only_blank_entry_witness :
    composedKey (buildNamesDict []) (.int 5) = "unknown" :=
  (c10_fallback_only_blank_entry [] (.int 5)).1 (by decide)

end SniperConvert
